import Mathlib

/-!
Verification of the table-reconstruction heuristic of `pdf_table_extractor.py`.

The development shallowly embeds the three pure functions of the source —
`extract_tables_from_pdf`'s per-page branching, `group_text_into_rows` and
`build_table_from_rows` — over exact rational coordinates and Lean strings.
Python's `round` (banker's rounding) is modelled by `pyRound`, Python's
`str.strip` by `pyStrip`, Python's stable `sorted` by the stable insertion
sort `sortS`, and Python dict bucketing by filtering over the deduplicated
key list.  A second layer (`...E` functions over `RawToken`) models the
`obj['top']` / `word['x0']` / `word['x1']` dictionary subscripts as fallible
lookups raising `KeyError`, for the error-handling claims.
-/

/-- Python `round(q)` for an exact rational `q`: round to the nearest
integer, ties to the even integer (banker's rounding). -/
def pyRound (q : ℚ) : ℤ :=
  if q - (⌊q⌋ : ℚ) < 1/2 then ⌊q⌋
  else if 1/2 < q - (⌊q⌋ : ℚ) then ⌊q⌋ + 1
  else if ⌊q⌋ % 2 = 0 then ⌊q⌋ else ⌊q⌋ + 1

/-- Round half away from zero, the rounding mode the spec prescribes for the
row-bucket key (spec §4.1 step 1).  Kept separate from `pyRound` so the two
conventions can be compared. -/
def roundHalfAwayFromZero (q : ℚ) : ℤ :=
  if 0 ≤ q then ⌊q + 1/2⌋ else -⌊-q + 1/2⌋

/-- The whitespace characters stripped by Python's `str.strip()` (ASCII
fragment; the claims only involve plain spaces). -/
def isPySpace (c : Char) : Bool :=
  c == ' ' || c == '\t' || c == '\n' || c == '\r' || c == '\x0b' || c == '\x0c'

/-- Python `s.strip()`: remove leading and trailing whitespace. -/
def pyStrip (s : String) : String :=
  ⟨((s.data.dropWhile isPySpace).reverse.dropWhile isPySpace).reverse⟩

/-- A word object as returned by `page.extract_words()`: text plus the
positional fields the heuristic reads (`x0`, `x1`, `top`), as exact
rationals. -/
structure Token where
  text : String
  x0 : ℚ
  x1 : ℚ
  top : ℚ
deriving DecidableEq

/-- The bucket key of line 44: `y = round(obj['top'] / tolerance) * tolerance`. -/
def rowKey (tolerance top : ℚ) : ℚ :=
  (pyRound (top / tolerance) : ℚ) * tolerance

/-- The bucket key as the spec's words prescribe it (round half away from
zero), for comparison with `rowKey`. -/
def specRowKeyAway (tolerance top : ℚ) : ℚ :=
  (roundHalfAwayFromZero (top / tolerance) : ℚ) * tolerance

/-- Stable insertion step: place `x` before the first element it is `le` to.
Together with `sortS` this models Python's stable ascending `sorted`. -/
def insertS (le : α → α → Bool) (x : α) : List α → List α
  | [] => [x]
  | y :: ys => if le x y then x :: y :: ys else y :: insertS le x ys

/-- Stable insertion sort, modelling Python's `sorted`. -/
def sortS (le : α → α → Bool) : List α → List α
  | [] => []
  | x :: xs => insertS le x (sortS le xs)

/-- Ascending comparison on rationals, for sorting the bucket keys. -/
def qLe (a b : ℚ) : Bool := decide (a ≤ b)

/-- The `key=lambda x: x['x0']` comparison of line 51. -/
def x0Le (a b : Token) : Bool := decide (a.x0 ≤ b.x0)

/-- `group_text_into_rows` (lines 35-53): bucket tokens by the rounded `top`
key, then emit buckets in ascending key order, each sorted by `x0`.  The
Python dict keeps each bucket in insertion order, which `List.filter` over
the input reproduces; `sorted(rows.keys())` is the sorted deduplicated key
list. -/
def group_text_into_rows (text_objs : List Token) (tolerance : ℚ) : List (List Token) :=
  let keys := sortS qLe ((text_objs.map (fun t => rowKey tolerance t.top)).dedup)
  keys.map (fun y => sortS x0Le (text_objs.filter (fun t => decide (rowKey tolerance t.top = y))))

/-- The per-row loop of `build_table_from_rows` (lines 61-80): scan words
left to right, flushing the accumulator `current_cell` (stripped) whenever
`last_x is None or word['x0'] - last_x > 10`, and finally flushing the
trailing accumulator if non-empty. -/
def buildRowAux : List Token → List String → String → Option ℚ → List String
  | [], rowData, cc, _ => if cc = "" then rowData else rowData ++ [pyStrip cc]
  | w :: ws, rowData, cc, lastX =>
    match lastX with
    | none =>
      buildRowAux ws (if cc = "" then rowData else rowData ++ [pyStrip cc]) (w.text ++ " ") (some w.x1)
    | some lx =>
      if 10 < w.x0 - lx then
        buildRowAux ws (if cc = "" then rowData else rowData ++ [pyStrip cc]) (w.text ++ " ") (some w.x1)
      else
        buildRowAux ws rowData (cc ++ w.text ++ " ") (some w.x1)

/-- One row's cell list (the body of the `for row in rows` loop). -/
def build_row (row : List Token) : List String :=
  buildRowAux row [] "" none

/-- `build_table_from_rows` (lines 55-81): map the per-row scan over all
rows; line 80 appends every `row_data`, including empty ones. -/
def build_table_from_rows (rows : List (List Token)) : List (List String) :=
  rows.map build_row

/-- A table as returned by `page.extract_tables()`: rows of possibly-`None`
cells. -/
abbrev PyTable : Type := List (List (Option String))

/-- Line 21's filter: `any(row for row in table if any(cell is not None for
cell in row))` — the generator yields the rows having a non-`None` cell and
`any` tests their truthiness (non-emptiness). -/
def tableUsable (table : PyTable) : Bool :=
  (table.filter (fun row => row.any (fun c => c.isSome))).any (fun row => !row.isEmpty)

/-- Lift a heuristic table (cells are plain strings) into the `PyTable`
shape for the page-level result list. -/
def liftTable (t : List (List String)) : PyTable :=
  t.map (fun r => r.map (fun c => some c))

/-- The per-page branching of `extract_tables_from_pdf` (lines 18-31): the
tables this page appends, paired with whether the heuristic fallback branch
ran.  `if tables:` keeps the usable bordered tables; the `else` branch runs
the heuristic and appends its table when any rows were found. -/
def pageStep (tables : List PyTable) (words : List Token) : List PyTable × Bool :=
  if !tables.isEmpty then
    (tables.filter tableUsable, false)
  else
    let rows := group_text_into_rows words 3
    (if rows.isEmpty then [] else [liftTable (build_table_from_rows rows)], true)

/-- The fallback branch alone (lines 25-31): `none` is the "No table
detected" outcome, `some` a built table. -/
def fallbackResult (words : List Token) : Option (List (List String)) :=
  let rows := group_text_into_rows words 3
  if rows.isEmpty then none else some (build_table_from_rows rows)

/-- Gap-splitting of a row as the spec words it: a new cell starts at the
first token and at every token whose `x0` exceeds the previous token's `x1`
by more than the tolerance.  `cur` is the current group, reversed. -/
def gapGroupsAux (tol : ℚ) (prev : Token) (cur : List Token) : List Token → List (List Token)
  | [] => [cur.reverse]
  | t :: ts =>
    if tol < t.x0 - prev.x1 then cur.reverse :: gapGroupsAux tol t [t] ts
    else gapGroupsAux tol t (t :: cur) ts

/-- The token groups underlying a row's cells, per the spec's boundary
condition. -/
def specGapGroups (tol : ℚ) : List Token → List (List Token)
  | [] => []
  | t :: ts => gapGroupsAux tol t [t] ts

/-- Join strings with single spaces (the spec's "joined by single spaces"). -/
def joinSpace : List String → String
  | [] => ""
  | [s] => s
  | s :: rest => s ++ " " ++ joinSpace rest

/-- Plain concatenation, mirroring the accumulator `current_cell`, which
receives `word['text'] + " "` for each word of the cell. -/
def joinAll : List String → String
  | [] => ""
  | s :: rest => s ++ joinAll rest

/-- Cell text of a token group as the spec words it: texts joined by single
spaces, stripped. -/
def specCellText (g : List Token) : String :=
  pyStrip (joinSpace (g.map (fun t => t.text)))

/-- A word dictionary whose positional entries may be missing, for the
malformed-token claims: `obj['top']` on a dict with no `'top'` key raises
`KeyError`. -/
structure RawToken where
  text : String
  x0 : Option ℚ
  x1 : Option ℚ
  top : Option ℚ
deriving DecidableEq

/-- Dictionary subscript: `obj[key]` returns the value or raises `KeyError`
(modelled as `Except.error ()`). -/
def getField (o : Option ℚ) : Except Unit ℚ :=
  match o with
  | some v => Except.ok v
  | none => Except.error ()

/-- Left-to-right effectful map: a Python `for` loop that may raise at any
element, aborting the whole computation. -/
def mapE (f : α → Except Unit β) : List α → Except Unit (List β)
  | [] => Except.ok []
  | a :: as => do
    let b ← f a
    let bs ← mapE f as
    pure (b :: bs)

/-- Comparison on (sort key, element) pairs: Python's `sorted` with a `key`
function computes every element's key, then sorts stably by it. -/
def pairLe (a b : ℚ × RawToken) : Bool := decide (a.1 ≤ b.1)

/-- `group_text_into_rows` over raw word dicts: `obj['top']` is read for
every object while bucketing (line 44), and `sorted(..., key=lambda x:
x['x0'])` reads `x['x0']` for every bucket element (line 51), so a missing
field raises instead of producing rows. -/
def group_text_into_rowsE (tolerance : ℚ) (text_objs : List RawToken) :
    Except Unit (List (List RawToken)) := do
  let keyed ← mapE (fun t => do
    let tp ← getField t.top
    pure (rowKey tolerance tp, t)) text_objs
  let keys := sortS qLe ((keyed.map Prod.fst).dedup)
  mapE (fun y => do
    let bucket := (keyed.filter (fun p => decide (p.1 = y))).map Prod.snd
    let paired ← mapE (fun t => do
      let x ← getField t.x0
      pure (x, t)) bucket
    pure ((sortS pairLe paired).map Prod.snd)) keys

/-- The per-row scan over raw word dicts.  For the first word `last_x is
None` short-circuits, so `word['x0']` is not read; `word['x1']` is read for
every word (line 77). -/
def buildRowAuxE : List RawToken → List String → String → Option ℚ →
    Except Unit (List String)
  | [], rowData, cc, _ => Except.ok (if cc = "" then rowData else rowData ++ [pyStrip cc])
  | w :: ws, rowData, cc, lastX =>
    match lastX with
    | none => do
      let x1 ← getField w.x1
      buildRowAuxE ws (if cc = "" then rowData else rowData ++ [pyStrip cc]) (w.text ++ " ") (some x1)
    | some lx => do
      let x0 ← getField w.x0
      let x1 ← getField w.x1
      if 10 < x0 - lx then
        buildRowAuxE ws (if cc = "" then rowData else rowData ++ [pyStrip cc]) (w.text ++ " ") (some x1)
      else
        buildRowAuxE ws rowData (cc ++ w.text ++ " ") (some x1)

/-- `build_table_from_rows` over raw word dicts. -/
def build_table_from_rowsE (rows : List (List RawToken)) : Except Unit (List (List String)) :=
  mapE (fun r => buildRowAuxE r [] "" none) rows

/-- The fallback branch (lines 25-31) over raw word dicts: group into rows,
then build the table when rows exist; any `KeyError` aborts the page. -/
def fallbackResultE (tolerance : ℚ) (words : List RawToken) :
    Except Unit (Option (List (List String))) := do
  let rows ← group_text_into_rowsE tolerance words
  if rows.isEmpty then pure none
  else do
    let t ← build_table_from_rowsE rows
    pure (some t)

/-- A raw token is missing a required positional field. -/
def missingField (t : RawToken) : Prop :=
  t.top = none ∨ t.x0 = none ∨ t.x1 = none

/-- The (bucket key, token) pair computed while bucketing, when the `top`
field is present (`getD 0` is never reached on well-formed input). -/
def keyPair (tol : ℚ) (t : RawToken) : ℚ × RawToken :=
  (rowKey tol (t.top.getD 0), t)

/-- The (sort key, token) pair computed by `sorted(..., key=lambda x:
x['x0'])`, when the `x0` field is present. -/
def x0Pair (t : RawToken) : ℚ × RawToken :=
  (t.x0.getD 0, t)

/-- The bucket of raw tokens whose key is `y`, in input order. -/
def bucketOf (tol : ℚ) (toks : List RawToken) (y : ℚ) : List RawToken :=
  ((toks.map (keyPair tol)).filter (fun p => decide (p.1 = y))).map Prod.snd

/-- The emitted row for key `y`: the bucket sorted stably by `x0`. -/
def rowOf (tol : ℚ) (toks : List RawToken) (y : ℚ) : List RawToken :=
  (sortS pairLe ((bucketOf tol toks y).map x0Pair)).map Prod.snd

/-- The sorted deduplicated bucket keys of a raw-token list. -/
def keysOf (tol : ℚ) (toks : List RawToken) : List ℚ :=
  sortS qLe (((toks.map (keyPair tol)).map Prod.fst).dedup)

/-! Helper lemmas about the stable insertion sort. -/

theorem insertS_perm (le : α → α → Bool) (x : α) (l : List α) :
    List.Perm (insertS le x l) (x :: l) := by
  induction l with
  | nil => simp [insertS]
  | cons y ys ih =>
    simp only [insertS]
    split
    · exact List.Perm.refl _
    · exact (ih.cons y).trans (List.Perm.swap x y ys)

theorem sortS_perm (le : α → α → Bool) (l : List α) : List.Perm (sortS le l) l := by
  induction l with
  | nil => simp [sortS]
  | cons x xs ih => exact (insertS_perm le x (sortS le xs)).trans (ih.cons x)

theorem insertS_pairwise (le : α → α → Bool)
    (htot : ∀ a b, le a b = true ∨ le b a = true)
    (htrans : ∀ a b c, le a b = true → le b c = true → le a c = true)
    (x : α) (l : List α) (hl : List.Pairwise (fun a b => le a b = true) l) :
    List.Pairwise (fun a b => le a b = true) (insertS le x l) := by
  induction l with
  | nil => simp [insertS]
  | cons y ys ih =>
    rcases List.pairwise_cons.1 hl with ⟨hy, hys⟩
    simp only [insertS]
    split
    · rename_i hxy
      refine List.pairwise_cons.2 ⟨?_, hl⟩
      intro b hb
      rcases List.mem_cons.1 hb with rfl | hb
      · exact hxy
      · exact htrans x y b hxy (hy b hb)
    · rename_i hxy
      have hyx : le y x = true := (htot x y).resolve_left hxy
      refine List.pairwise_cons.2 ⟨?_, ih hys⟩
      intro b hb
      have hb' : b = x ∨ b ∈ ys := by
        have := (insertS_perm le x ys).mem_iff.1 hb
        simpa using this
      rcases hb' with rfl | hb'
      · exact hyx
      · exact hy b hb'

theorem sortS_pairwise (le : α → α → Bool)
    (htot : ∀ a b, le a b = true ∨ le b a = true)
    (htrans : ∀ a b c, le a b = true → le b c = true → le a c = true)
    (l : List α) : List.Pairwise (fun a b => le a b = true) (sortS le l) := by
  induction l with
  | nil => simp [sortS]
  | cons x xs ih => exact insertS_pairwise le htot htrans x _ ih

theorem sortS_eq_of_pairwise (le : α → α → Bool) (l : List α)
    (hl : List.Pairwise (fun a b => le a b = true) l) : sortS le l = l := by
  induction l with
  | nil => rfl
  | cons x xs ih =>
    rcases List.pairwise_cons.1 hl with ⟨hx, hxs⟩
    simp only [sortS, ih hxs]
    cases xs with
    | nil => rfl
    | cons y ys => simp [insertS, hx y (List.mem_cons_self y ys)]

/-! Helper lemmas about Python rounding. -/

theorem pyRound_sub_le (q : ℚ) : |q - (pyRound q : ℚ)| ≤ 1/2 := by
  have h0 : ((⌊q⌋ : ℤ) : ℚ) ≤ q := Int.floor_le q
  have h1 : q < ((⌊q⌋ : ℤ) : ℚ) + 1 := Int.lt_floor_add_one q
  unfold pyRound
  split
  · rename_i h
    rw [abs_of_nonneg (by linarith)]
    linarith
  · rename_i h
    split
    · rename_i h'
      push_cast
      rw [abs_of_nonpos (by linarith)]
      linarith
    · rename_i h'
      have heq : q - ((⌊q⌋ : ℤ) : ℚ) = 1/2 := le_antisymm (not_lt.1 h') (not_lt.1 h)
      split
      · rw [abs_of_nonneg (by linarith)]
        linarith
      · push_cast
        rw [abs_of_nonpos (by linarith)]
        linarith

theorem pyRound_tie (q : ℚ) (h : q - ((⌊q⌋ : ℤ) : ℚ) = 1/2) : pyRound q % 2 = 0 := by
  unfold pyRound
  rw [h]
  simp only [lt_irrefl, if_false]
  split
  · assumption
  · rename_i h2
    omega

/-! Helper lemmas about strings and joining. -/

theorem data_append (a b : String) : (a ++ b).data = a.data ++ b.data := rfl

theorem dropWhile_cons_space (l : List Char) :
    List.dropWhile isPySpace (' ' :: l) = List.dropWhile isPySpace l := by
  simp [List.dropWhile, isPySpace]

theorem pyStrip_append_space (s : String) : pyStrip (s ++ " ") = pyStrip s := by
  unfold pyStrip
  have hd : (s ++ " ").data = s.data ++ [' '] := rfl
  rw [hd, List.dropWhile_append]
  split
  · rename_i he
    have h1 : List.dropWhile isPySpace [' '] = ([] : List Char) := by
      simp [List.dropWhile, isPySpace]
    have h2 : s.data.dropWhile isPySpace = [] := List.isEmpty_iff.1 he
    rw [h1, h2]
  · rw [List.reverse_append]
    simp only [List.reverse_cons, List.reverse_nil, List.nil_append, List.singleton_append]
    rw [dropWhile_cons_space]

theorem append_space_ne_empty (s : String) : s ++ " " ≠ "" := by
  intro h
  have : (s ++ " ").data = ("" : String).data := by rw [h]
  rw [data_append] at this
  simp at this

theorem joinAll_snoc (l : List String) (s : String) :
    joinAll (l ++ [s]) = joinAll l ++ s := by
  induction l with
  | nil => simp [joinAll, String.append_empty]
  | cons a as ih => simp [joinAll, ih, String.append_assoc]

theorem joinAll_map_space (l : List String) (h : l ≠ []) :
    joinAll (l.map (fun s => s ++ " ")) = joinSpace l ++ " " := by
  induction l with
  | nil => cases h rfl
  | cons a as ih =>
    cases as with
    | nil => simp [joinAll, joinSpace, String.append_empty]
    | cons b bs =>
      have ih' := ih (by simp)
      simp only [List.map_cons, joinAll, joinSpace] at *
      rw [ih', ← String.append_assoc]

theorem specCellText_eq_acc (g : List Token) (h : g ≠ []) :
    pyStrip (joinAll (g.map (fun t => t.text ++ " "))) = specCellText g := by
  have hm : g.map (fun t => t.text ++ " ")
      = (g.map (fun t => t.text)).map (fun s => s ++ " ") := by
    simp [List.map_map]
  rw [hm, joinAll_map_space _ (by simpa using h), pyStrip_append_space, specCellText]

/-! The per-row scan computes exactly one (stripped, space-joined) cell per
gap-delimited token group. -/

theorem buildRowAux_eq_groups (ts : List Token) :
    ∀ (rd : List String) (prev : Token) (cur : List Token), cur ≠ [] →
    buildRowAux ts rd (joinAll (cur.reverse.map (fun t => t.text ++ " "))) (some prev.x1)
      = rd ++ (gapGroupsAux 10 prev cur ts).map specCellText := by
  induction ts with
  | nil =>
    intro rd prev cur hcur
    have hrev : cur.reverse ≠ [] := by simpa using hcur
    have hne : joinAll (cur.reverse.map (fun t => t.text ++ " ")) ≠ "" := by
      have hm : cur.reverse.map (fun t => t.text ++ " ")
          = (cur.reverse.map (fun t => t.text)).map (fun s => s ++ " ") := by
        simp [List.map_map]
      rw [hm, joinAll_map_space _ (by simpa using hrev)]
      exact append_space_ne_empty _
    simp only [buildRowAux, gapGroupsAux, List.map_cons, List.map_nil]
    rw [if_neg hne, specCellText_eq_acc cur.reverse hrev]
  | cons t ts ih =>
    intro rd prev cur hcur
    have hrev : cur.reverse ≠ [] := by simpa using hcur
    have hne : joinAll (cur.reverse.map (fun t => t.text ++ " ")) ≠ "" := by
      have hm : cur.reverse.map (fun t => t.text ++ " ")
          = (cur.reverse.map (fun t => t.text)).map (fun s => s ++ " ") := by
        simp [List.map_map]
      rw [hm, joinAll_map_space _ (by simpa using hrev)]
      exact append_space_ne_empty _
    simp only [buildRowAux, gapGroupsAux]
    by_cases hgap : 10 < t.x0 - prev.x1
    · rw [if_pos hgap, if_pos hgap, if_neg hne]
      have hone : t.text ++ " " = joinAll (([t] : List Token).reverse.map (fun u => u.text ++ " ")) := by
        simp [joinAll, String.append_empty]
      rw [hone, ih (rd ++ [pyStrip (joinAll (cur.reverse.map (fun t => t.text ++ " ")))]) t [t] (by simp)]
      rw [specCellText_eq_acc cur.reverse hrev]
      simp [List.append_assoc]
    · rw [if_neg hgap, if_neg hgap]
      have hacc : joinAll (cur.reverse.map (fun u => u.text ++ " ")) ++ t.text ++ " "
          = joinAll ((t :: cur).reverse.map (fun u => u.text ++ " ")) := by
        rw [List.reverse_cons, List.map_append]
        simp only [List.map_cons, List.map_nil]
        rw [joinAll_snoc]
        simp [String.append_assoc]
      rw [hacc, ih rd t (t :: cur) (by simp)]

theorem build_row_eq_groups (row : List Token) :
    build_row row = (specGapGroups 10 row).map specCellText := by
  cases row with
  | nil => rfl
  | cons t ts =>
    show buildRowAux (t :: ts) [] "" none = _
    simp only [buildRowAux, specGapGroups]
    simp only [if_true]
    have hone : t.text ++ " " = joinAll (([t] : List Token).reverse.map (fun u => u.text ++ " ")) := by
      simp [joinAll, String.append_empty]
    rw [hone, buildRowAux_eq_groups ts [] t [t] (by simp)]
    simp

/-! Gap groups flatten back to the row and are never the empty list of
groups for a non-empty row. -/

theorem gapGroupsAux_flatten (tol : ℚ) (ts : List Token) :
    ∀ (prev : Token) (cur : List Token),
    (gapGroupsAux tol prev cur ts).flatten = cur.reverse ++ ts := by
  induction ts with
  | nil => intro prev cur; simp [gapGroupsAux]
  | cons t ts ih =>
    intro prev cur
    simp only [gapGroupsAux]
    split
    · simp [List.flatten_cons, ih t [t]]
    · rw [ih t (t :: cur)]
      simp

theorem specGapGroups_flatten (tol : ℚ) (l : List Token) :
    (specGapGroups tol l).flatten = l := by
  cases l with
  | nil => rfl
  | cons t ts => simpa using gapGroupsAux_flatten tol ts t [t]

theorem gapGroupsAux_ne_nil (tol : ℚ) (ts : List Token) :
    ∀ prev cur, gapGroupsAux tol prev cur ts ≠ [] := by
  induction ts with
  | nil => intro prev cur; simp [gapGroupsAux]
  | cons t ts ih =>
    intro prev cur
    simp only [gapGroupsAux]
    split
    · simp
    · exact ih t (t :: cur)

/-! Partition lemmas: bucketing by key then concatenating bucket sizes
recovers the input length. -/

theorem sum_map_ite_eq {K : Type} [DecidableEq K] (x : K) (keys : List K)
    (hnd : keys.Nodup) (hx : x ∈ keys) :
    (keys.map (fun y => if x = y then 1 else 0)).sum = 1 := by
  induction keys with
  | nil => cases hx
  | cons k ks ih =>
    rcases List.nodup_cons.1 hnd with ⟨hk, hks⟩
    by_cases he : x = k
    · subst he
      have hzero : (ks.map (fun y => if x = y then 1 else 0)).sum = 0 := by
        rw [List.sum_eq_zero]
        intro n hn
        rcases List.mem_map.1 hn with ⟨y, hy, rfl⟩
        have : ¬x = y := fun h => hk (h ▸ hy)
        simp [this]
      simp [hzero]
    · have hx' : x ∈ ks := by
        rcases List.mem_cons.1 hx with h | h
        · cases he h
        · exact h
      simp [he, ih hks hx']

theorem sum_filter_lengths {K : Type} [DecidableEq K] (keyf : α → K)
    (l : List α) :
    ∀ (keys : List K), keys.Nodup → (∀ a ∈ l, keyf a ∈ keys) →
    (keys.map (fun y => (l.filter (fun a => decide (keyf a = y))).length)).sum = l.length := by
  induction l with
  | nil => intro keys _ _; simp
  | cons a as ih =>
    intro keys hnd hmem
    have hone : (keys.map (fun y => if keyf a = y then 1 else 0)).sum = 1 :=
      sum_map_ite_eq (keyf a) keys hnd (hmem a (List.mem_cons_self a as))
    have hstep : ∀ y : K,
        ((a :: as).filter (fun b => decide (keyf b = y))).length
          = (as.filter (fun b => decide (keyf b = y))).length + (if keyf a = y then 1 else 0) := by
      intro y
      by_cases hy : keyf a = y
      · simp [List.filter, hy]
      · simp [List.filter, hy]
    have : keys.map (fun y => ((a :: as).filter (fun b => decide (keyf b = y))).length)
        = keys.map (fun y =>
            (as.filter (fun b => decide (keyf b = y))).length + (if keyf a = y then 1 else 0)) := by
      exact List.map_congr_left (fun y _ => hstep y)
    rw [this, List.sum_map_add, hone, ih keys hnd (fun b hb => hmem b (List.mem_cons_of_mem a hb))]
    simp

/-! Structure of the rows produced by `group_text_into_rows`. -/

theorem x0Le_total : ∀ a b : Token, x0Le a b = true ∨ x0Le b a = true := by
  intro a b
  simp only [x0Le, decide_eq_true_eq]
  exact le_total a.x0 b.x0

theorem x0Le_trans : ∀ a b c : Token, x0Le a b = true → x0Le b c = true → x0Le a c = true := by
  intro a b c
  simp only [x0Le, decide_eq_true_eq]
  exact le_trans

theorem group_row_spec (toks : List Token) (tol : ℚ) (row : List Token)
    (hrow : row ∈ group_text_into_rows toks tol) :
    row ≠ [] ∧ (∃ y, ∀ t ∈ row, rowKey tol t.top = y) ∧
    List.Pairwise (fun a b => x0Le a b = true) row := by
  unfold group_text_into_rows at hrow
  rcases List.mem_map.1 hrow with ⟨y, hy, rfl⟩
  have hy' : y ∈ (toks.map (fun t => rowKey tol t.top)).dedup := (sortS_perm _ _).mem_iff.1 hy
  have hy'' : y ∈ toks.map (fun t => rowKey tol t.top) := List.mem_dedup.1 hy'
  rcases List.mem_map.1 hy'' with ⟨t0, ht0, ht0k⟩
  refine ⟨?_, ⟨y, ?_⟩, ?_⟩
  · have hmem : t0 ∈ toks.filter (fun t => decide (rowKey tol t.top = y)) :=
      List.mem_filter.2 ⟨ht0, by simp [ht0k]⟩
    intro hnil
    have hp := sortS_perm x0Le (toks.filter (fun t => decide (rowKey tol t.top = y)))
    rw [hnil] at hp
    rw [hp.symm.eq_nil] at hmem
    cases hmem
  · intro t ht
    have ht' := (sortS_perm x0Le _).mem_iff.1 ht
    have := List.mem_filter.1 ht'
    simpa using this.2
  · exact sortS_pairwise x0Le x0Le_total x0Le_trans _

theorem dedup_const {K : Type} [DecidableEq K] (l : List K) (k : K) (hne : l ≠ [])
    (hall : ∀ x ∈ l, x = k) : l.dedup = [k] := by
  have hnd : l.dedup.Nodup := List.nodup_dedup l
  have hmem : k ∈ l.dedup := by
    rcases l with _ | ⟨a, as⟩
    · cases hne rfl
    · have ha : a = k := hall a (List.mem_cons_self a as)
      subst ha
      exact List.mem_dedup.2 (List.mem_cons_self a as)
  have hsub : ∀ x ∈ l.dedup, x = k := fun x hx => hall x (List.mem_dedup.1 hx)
  rcases e : l.dedup with _ | ⟨b, bs⟩
  · rw [e] at hmem; cases hmem
  · rw [e] at hnd hsub
    have hb : b = k := hsub b (List.mem_cons_self b bs)
    subst hb
    have hbs : bs = [] := by
      rcases bs with _ | ⟨c, cs⟩
      · rfl
      · have hc : c = b := hsub c (by simp)
        rcases List.nodup_cons.1 hnd with ⟨hnb, _⟩
        cases hnb (by simp [hc])
    rw [hbs]

theorem group_of_single_key (row : List Token) (tol y : ℚ) (hne : row ≠ [])
    (hall : ∀ t ∈ row, rowKey tol t.top = y)
    (hsorted : List.Pairwise (fun a b => x0Le a b = true) row) :
    group_text_into_rows row tol = [row] := by
  unfold group_text_into_rows
  have hmap : ∀ x ∈ row.map (fun t => rowKey tol t.top), x = y := by
    intro x hx
    rcases List.mem_map.1 hx with ⟨t, ht, rfl⟩
    exact hall t ht
  have hmapne : row.map (fun t => rowKey tol t.top) ≠ [] := by
    simpa using hne
  rw [dedup_const _ y hmapne hmap]
  have hkeys : sortS qLe [y] = [y] := by simp [sortS, insertS]
  rw [hkeys]
  have hfil : row.filter (fun t => decide (rowKey tol t.top = y)) = row :=
    List.filter_eq_self.2 (fun t ht => by simp [hall t ht])
  simp only [List.map_cons, List.map_nil, hfil]
  rw [sortS_eq_of_pairwise x0Le row hsorted]

/-! Error propagation through the raw-token layer. -/

theorem except_bind_error {α β : Type} (f : α → Except Unit β) :
    (Except.error () >>= f) = Except.error () := rfl

theorem except_bind_ok {α β : Type} (a : α) (f : α → Except Unit β) :
    (Except.ok a >>= f) = f a := rfl

theorem mapE_error {α β : Type} {f : α → Except Unit β} (l : List α)
    (h : ∃ a ∈ l, f a = Except.error ()) : mapE f l = Except.error () := by
  induction l with
  | nil => rcases h with ⟨a, ha, _⟩; cases ha
  | cons x xs ih =>
    rcases h with ⟨a, ha, hfa⟩
    rcases List.mem_cons.1 ha with rfl | ha'
    · simp [mapE, hfa, except_bind_error]
    · cases e : f x with
      | error u => cases u; simp [mapE, e, except_bind_error]
      | ok b =>
        simp [mapE, e, ih ⟨a, ha', hfa⟩, except_bind_ok, except_bind_error]

theorem mapE_ok {α β : Type} {f : α → Except Unit β} {g : α → β} (l : List α)
    (h : ∀ a ∈ l, f a = Except.ok (g a)) : mapE f l = Except.ok (l.map g) := by
  induction l with
  | nil => rfl
  | cons x xs ih =>
    have hx := h x (List.mem_cons_self x xs)
    have ih' := ih (fun a ha => h a (List.mem_cons_of_mem x ha))
    simp [mapE, hx, ih', except_bind_ok]

theorem buildRowAuxE_error (row : List RawToken) :
    ∀ (rd : List String) (cc : String) (lastX : Option ℚ),
    (∀ t ∈ row, t.x0 ≠ none) → (∃ t ∈ row, t.x1 = none) →
    buildRowAuxE row rd cc lastX = Except.error () := by
  induction row with
  | nil => intro rd cc lastX _ h; rcases h with ⟨t, ht, _⟩; cases ht
  | cons w ws ih =>
    intro rd cc lastX hx0 hx1
    cases lastX with
    | none =>
      rcases e1 : w.x1 with _ | v1
      · simp [buildRowAuxE, e1, getField, except_bind_error]
      · rcases hx1 with ⟨t, ht, htx1⟩
        rcases List.mem_cons.1 ht with rfl | ht'
        · rw [e1] at htx1; cases htx1
        · simp only [buildRowAuxE, e1, getField, except_bind_ok]
          exact ih _ _ _ (fun u hu => hx0 u (List.mem_cons_of_mem w hu)) ⟨t, ht', htx1⟩
    | some lx =>
      have hx0w := hx0 w (List.mem_cons_self w ws)
      rcases e0 : w.x0 with _ | v0
      · cases hx0w e0
      · rcases e1 : w.x1 with _ | v1
        · simp [buildRowAuxE, e0, e1, getField, except_bind_ok, except_bind_error]
        · rcases hx1 with ⟨t, ht, htx1⟩
          rcases List.mem_cons.1 ht with rfl | ht'
          · rw [e1] at htx1; cases htx1
          · simp only [buildRowAuxE, e0, e1, getField, except_bind_ok]
            split
            · exact ih _ _ _ (fun u hu => hx0 u (List.mem_cons_of_mem w hu)) ⟨t, ht', htx1⟩
            · exact ih _ _ _ (fun u hu => hx0 u (List.mem_cons_of_mem w hu)) ⟨t, ht', htx1⟩

theorem except_pure {α : Type} (a : α) : (pure a : Except Unit α) = Except.ok a := rfl

theorem mem_bucketOf {tol : ℚ} {toks : List RawToken} {y : ℚ} {t : RawToken}
    (h : t ∈ bucketOf tol toks y) : t ∈ toks := by
  unfold bucketOf at h
  rcases List.mem_map.1 h with ⟨p, hp, rfl⟩
  have hp' := (List.mem_filter.1 hp).1
  rcases List.mem_map.1 hp' with ⟨u, hu, rfl⟩
  simpa [keyPair] using hu

theorem mem_rowOf {tol : ℚ} {toks : List RawToken} {y : ℚ} {t : RawToken}
    (h : t ∈ rowOf tol toks y) : t ∈ bucketOf tol toks y := by
  unfold rowOf at h
  rcases List.mem_map.1 h with ⟨p, hp, rfl⟩
  have hp' := (sortS_perm pairLe _).mem_iff.1 hp
  rcases List.mem_map.1 hp' with ⟨u, hu, rfl⟩
  simpa [x0Pair] using hu

theorem self_mem_rowOf {tol : ℚ} {toks : List RawToken} {t : RawToken} (ht : t ∈ toks) :
    t ∈ rowOf tol toks (rowKey tol (t.top.getD 0)) := by
  unfold rowOf
  have hb : t ∈ bucketOf tol toks (rowKey tol (t.top.getD 0)) := by
    unfold bucketOf
    refine List.mem_map.2 ⟨keyPair tol t, ?_, by simp [keyPair]⟩
    exact List.mem_filter.2 ⟨List.mem_map.2 ⟨t, ht, rfl⟩, by simp [keyPair]⟩
  refine List.mem_map.2 ⟨x0Pair t, ?_, by simp [x0Pair]⟩
  exact (sortS_perm pairLe _).mem_iff.2 (List.mem_map.2 ⟨t, hb, rfl⟩)

theorem key_mem_keysOf {tol : ℚ} {toks : List RawToken} {t : RawToken} (ht : t ∈ toks) :
    rowKey tol (t.top.getD 0) ∈ keysOf tol toks := by
  unfold keysOf
  refine (sortS_perm qLe _).mem_iff.2 (List.mem_dedup.2 (List.mem_map.2 ⟨keyPair tol t, ?_, by simp [keyPair]⟩))
  exact List.mem_map.2 ⟨t, ht, rfl⟩

theorem groupE_keyed_ok (tol : ℚ) (toks : List RawToken)
    (htop : ∀ t ∈ toks, t.top ≠ none) :
    mapE (fun t => do
      let tp ← getField t.top
      pure ((rowKey tol tp, t) : ℚ × RawToken)) toks = Except.ok (toks.map (keyPair tol)) := by
  apply mapE_ok
  intro t ht
  rcases e : t.top with _ | v
  · cases htop t ht e
  · simp [getField, e, keyPair, except_bind_ok, except_pure]

theorem groupE_inner_ok (tol : ℚ) (toks : List RawToken)
    (hx0 : ∀ t ∈ toks, t.x0 ≠ none) (y : ℚ) :
    mapE (fun t => do
      let x ← getField t.x0
      pure ((x, t) : ℚ × RawToken)) (bucketOf tol toks y)
      = Except.ok ((bucketOf tol toks y).map x0Pair) := by
  apply mapE_ok
  intro t ht
  have hne := hx0 t (mem_bucketOf ht)
  rcases e : t.x0 with _ | v
  · cases hne e
  · simp [getField, e, x0Pair, except_bind_ok, except_pure]

theorem groupE_ok (tol : ℚ) (toks : List RawToken)
    (htop : ∀ t ∈ toks, t.top ≠ none) (hx0 : ∀ t ∈ toks, t.x0 ≠ none) :
    group_text_into_rowsE tol toks = Except.ok ((keysOf tol toks).map (rowOf tol toks)) := by
  unfold group_text_into_rowsE
  rw [groupE_keyed_ok tol toks htop, except_bind_ok]
  show mapE (fun y => do
      let paired ← mapE (fun t => do
        let x ← getField t.x0
        pure ((x, t) : ℚ × RawToken)) (bucketOf tol toks y)
      pure ((sortS pairLe paired).map Prod.snd)) (keysOf tol toks)
    = Except.ok ((keysOf tol toks).map (rowOf tol toks))
  apply mapE_ok
  intro y hy
  rw [groupE_inner_ok tol toks hx0 y, except_bind_ok]
  rfl

theorem groupE_error_top (tol : ℚ) (toks : List RawToken)
    (h : ∃ t ∈ toks, t.top = none) :
    group_text_into_rowsE tol toks = Except.error () := by
  unfold group_text_into_rowsE
  have herr : mapE (fun t => do
      let tp ← getField t.top
      pure ((rowKey tol tp, t) : ℚ × RawToken)) toks = Except.error () := by
    apply mapE_error
    rcases h with ⟨t, ht, htop⟩
    exact ⟨t, ht, by simp [htop, getField, except_bind_error]⟩
  rw [herr]
  rfl

theorem groupE_error_x0 (tol : ℚ) (toks : List RawToken)
    (htop : ∀ t ∈ toks, t.top ≠ none) (h : ∃ t ∈ toks, t.x0 = none) :
    group_text_into_rowsE tol toks = Except.error () := by
  unfold group_text_into_rowsE
  rw [groupE_keyed_ok tol toks htop, except_bind_ok]
  show mapE (fun y => do
      let paired ← mapE (fun t => do
        let x ← getField t.x0
        pure ((x, t) : ℚ × RawToken)) (bucketOf tol toks y)
      pure ((sortS pairLe paired).map Prod.snd)) (keysOf tol toks)
    = Except.error ()
  rcases h with ⟨t, ht, hx0t⟩
  apply mapE_error
  refine ⟨rowKey tol (t.top.getD 0), key_mem_keysOf ht, ?_⟩
  have hinner : mapE (fun t => do
      let x ← getField t.x0
      pure ((x, t) : ℚ × RawToken)) (bucketOf tol toks (rowKey tol (t.top.getD 0)))
      = Except.error () := by
    apply mapE_error
    refine ⟨t, ?_, by simp [hx0t, getField, except_bind_error]⟩
    have := @self_mem_rowOf tol toks t ht
    exact mem_rowOf this
  rw [hinner]
  rfl

theorem fallbackE_error (tol : ℚ) (toks : List RawToken)
    (h : ∃ t ∈ toks, missingField t) :
    fallbackResultE tol toks = Except.error () := by
  by_cases htop : ∃ t ∈ toks, t.top = none
  · unfold fallbackResultE
    rw [groupE_error_top tol toks htop]
    rfl
  · have htop' : ∀ t ∈ toks, t.top ≠ none := fun t ht e => htop ⟨t, ht, e⟩
    by_cases hx0 : ∃ t ∈ toks, t.x0 = none
    · unfold fallbackResultE
      rw [groupE_error_x0 tol toks htop' hx0]
      rfl
    · have hx0' : ∀ t ∈ toks, t.x0 ≠ none := fun t ht e => hx0 ⟨t, ht, e⟩
      rcases h with ⟨t, ht, hmf⟩
      have hx1t : t.x1 = none := by
        rcases hmf with h1 | h2 | h3
        · cases htop' t ht h1
        · cases hx0' t ht h2
        · exact h3
      unfold fallbackResultE
      rw [groupE_ok tol toks htop' hx0', except_bind_ok]
      have hkey := @key_mem_keysOf tol toks t ht
      have hrowsne : ((keysOf tol toks).map (rowOf tol toks)).isEmpty = false := by
        rcases e : keysOf tol toks with _ | ⟨y, ys⟩
        · rw [e] at hkey; cases hkey
        · simp [e]
      rw [if_neg (by rw [hrowsne]; simp)]
      have hbuild : build_table_from_rowsE ((keysOf tol toks).map (rowOf tol toks)) = Except.error () := by
        unfold build_table_from_rowsE
        apply mapE_error
        refine ⟨rowOf tol toks (rowKey tol (t.top.getD 0)), ?_, ?_⟩
        · exact List.mem_map.2 ⟨_, hkey, rfl⟩
        · apply buildRowAuxE_error
          · intro u hu
            exact hx0' u (mem_bucketOf (mem_rowOf hu))
          · exact ⟨t, self_mem_rowOf ht, hx1t⟩
      rw [hbuild]
      rfl

theorem group_rows_length (toks : List Token) (tol : ℚ) :
    ((group_text_into_rows toks tol).map List.length).sum = toks.length := by
  unfold group_text_into_rows
  rw [List.map_map]
  have hcomp : (List.length ∘ fun y => sortS x0Le (toks.filter (fun t => decide (rowKey tol t.top = y))))
      = fun y => (toks.filter (fun t => decide (rowKey tol t.top = y))).length := by
    funext y
    exact (sortS_perm x0Le _).length_eq
  rw [hcomp]
  apply sum_filter_lengths (fun t => rowKey tol t.top) toks
  · exact ((sortS_perm qLe _).nodup_iff).2 (List.nodup_dedup _)
  · intro t ht
    exact (sortS_perm qLe _).mem_iff.2 (List.mem_dedup.2 (List.mem_map.2 ⟨t, ht, rfl⟩))

theorem group_isEmpty_eq (toks : List Token) (tol : ℚ) :
    (group_text_into_rows toks tol).isEmpty = toks.isEmpty := by
  unfold group_text_into_rows
  rcases toks with _ | ⟨t, ts⟩
  · rfl
  · have hk : rowKey tol t.top ∈ sortS qLe (((t :: ts).map (fun u => rowKey tol u.top)).dedup) :=
      (sortS_perm qLe _).mem_iff.2
        (List.mem_dedup.2 (List.mem_map.2 ⟨t, List.mem_cons_self t ts, rfl⟩))
    rcases e : sortS qLe (((t :: ts).map (fun u => rowKey tol u.top)).dedup) with _ | ⟨y, ys⟩
    · rw [e] at hk; cases hk
    · rw [e]; rfl

theorem rowKey_multiple_and_dist (tol top : ℚ) (htol : 0 < tol) :
    ∃ n : ℤ, rowKey tol top = (n : ℚ) * tol ∧ |top - rowKey tol top| ≤ tol / 2 ∧
      (top / tol - ((⌊top / tol⌋ : ℤ) : ℚ) = 1/2 → n % 2 = 0) := by
  refine ⟨pyRound (top / tol), rfl, ?_, fun h => pyRound_tie _ h⟩
  have h1 := pyRound_sub_le (top / tol)
  have htolne : tol ≠ 0 := ne_of_gt htol
  have key : (top / tol) * tol = top := div_mul_cancel₀ top htolne
  have hsub : top - rowKey tol top = (top / tol - (pyRound (top / tol) : ℚ)) * tol := by
    rw [rowKey, sub_mul, key]
  rw [hsub, abs_mul, abs_of_pos htol]
  calc |top / tol - ((pyRound (top / tol) : ℤ) : ℚ)| * tol
      ≤ (1/2) * tol := mul_le_mul_of_nonneg_right h1 (le_of_lt htol)
    _ = tol / 2 := by ring

/-! Claim theorems. -/

/-- C1, counterexample: a page whose `extract_tables()` result is the single
table `[[None]]` has no usable table, yet the heuristic fallback does not
run (and the page contributes nothing), refuting "the fallback runs iff no
usable table exists". -/
theorem C1_counterexample :
    (pageStep [[[none]]] []).2 = false ∧ tableUsable [[none]] = false ∧
    pageStep [[[none]]] [] = ([], false) := by
  refine ⟨rfl, rfl, rfl⟩

/-- C1, amended: in `extract_tables_from_pdf` the heuristic fallback runs
for a page iff `page.extract_tables()` returned an empty list; when the list
is non-empty, the usability check only filters which bordered tables are
appended and never triggers the fallback. -/
theorem C1_fallback_iff_list_empty (tables : List PyTable) (words : List Token) :
    (pageStep tables words).2 = tables.isEmpty ∧
    ∀ (T : PyTable) (rest : List PyTable),
      pageStep (T :: rest) words = ((T :: rest).filter tableUsable, false) := by
  constructor
  · cases tables with
    | nil => rfl
    | cons a as => rfl
  · intro T rest
    rfl

/-- C2, counterexample: the code buckets `top = 1.5` with `τ_row = 3` at key
0 (`round(0.5)` is 0 under Python's round-half-to-even), while the claimed
round-half-away-from-zero key would be 3. -/
theorem C2_counterexample :
    rowKey 3 (3/2) = 0 ∧ specRowKeyAway 3 (3/2) = 3 ∧ ((0 : ℚ) ≠ 3) := by
  refine ⟨?_, ?_, by norm_num⟩
  · norm_num [rowKey, pyRound]
  · norm_num [specRowKeyAway, roundHalfAwayFromZero]

/-- C2, amended: the row-bucket key is a multiple of `τ_row` within
`τ_row / 2` of `token.top`, and an exact half rounds to the even multiple
(Python's banker's rounding), not away from zero. -/
theorem C2_bucket_key_nearest_even (tolerance top : ℚ) (htol : 0 < tolerance) :
    ∃ n : ℤ, rowKey tolerance top = (n : ℚ) * tolerance ∧
      |top - rowKey tolerance top| ≤ tolerance / 2 ∧
      (top / tolerance - ((⌊top / tolerance⌋ : ℤ) : ℚ) = 1/2 → n % 2 = 0) :=
  rowKey_multiple_and_dist tolerance top htol

/-- C2, witness: the amended statement at `τ_row = 3`, `top = 1.5`. -/
theorem C2_witness :
    (0 : ℚ) < 3 ∧
    (∃ n : ℤ, rowKey 3 (3/2) = (n : ℚ) * 3 ∧
      |(3/2 : ℚ) - rowKey 3 (3/2)| ≤ 3 / 2 ∧
      ((3/2 : ℚ) / 3 - ((⌊(3/2 : ℚ) / 3⌋ : ℤ) : ℚ) = 1/2 → n % 2 = 0)) :=
  ⟨by norm_num, C2_bucket_key_nearest_even 3 (3/2) (by norm_num)⟩

/-- C3, counterexample: a single token whose text is `" a"` produces the
cell `"a"` — `current_cell.strip()` removes the leading space as well — so
the cell does not preserve the token's leading characters. -/
theorem C3_counterexample :
    build_table_from_rows (group_text_into_rows [⟨" a", 0, 1, 0⟩] 3) = [["a"]] ∧
    (" a" : String) ≠ "a" := by
  constructor
  · norm_num [build_table_from_rows, group_text_into_rows, rowKey, pyRound,
      sortS, insertS, build_row, buildRowAux]
    decide
  · decide

/-- C3, amended: a single token yields a Table with one Row containing one
Cell equal to the token's text stripped of leading and trailing whitespace;
generally every Cell is its tokens' texts joined by single spaces with
leading and trailing whitespace trimmed. -/
theorem C3_single_token_cell (t : Token) :
    build_table_from_rows (group_text_into_rows [t] 3) = [[pyStrip t.text]] ∧
    ∀ rows : List (List Token), build_table_from_rows rows
      = rows.map (fun r => (specGapGroups 10 r).map specCellText) := by
  constructor
  · have hg : group_text_into_rows [t] 3 = [[t]] := by
      unfold group_text_into_rows
      simp [sortS, insertS, List.filter]
    rw [hg]
    show [build_row [t]] = [[pyStrip t.text]]
    rw [build_row_eq_groups]
    simp [specGapGroups, gapGroupsAux, specCellText, joinSpace]
  · intro rows
    exact List.map_congr_left (fun r _ => build_row_eq_groups r)

/-- C4: a new cell starts exactly at the first token of a row or when the
horizontal gap to the previous token's right edge exceeds `τ_col = 10`;
gap 5 merges `word1`/`word2` into one cell, gap 20 separates them. -/
theorem C4_cell_boundary_condition :
    (∀ rows : List (List Token), build_table_from_rows rows
        = rows.map (fun r => (specGapGroups 10 r).map specCellText)) ∧
    build_row [⟨"word1", 0, 20, 0⟩, ⟨"word2", 25, 40, 0⟩] = ["word1 word2"] ∧
    build_row [⟨"word1", 0, 20, 0⟩, ⟨"word2", 40, 60, 0⟩] = ["word1", "word2"] := by
  refine ⟨fun rows => List.map_congr_left (fun r _ => build_row_eq_groups r), ?_, ?_⟩
  · norm_num [build_row, buildRowAux]
    decide
  · norm_num [build_row, buildRowAux]
    decide

/-- C5: no token loss — the gap groups underlying the cells partition each
row, and the rows partition the input tokens, so the total token count
referenced across all cells of the composed pipeline equals the input
count; each group contributes exactly one cell. -/
theorem C5_no_token_loss (toks : List Token)
    (htext : ∀ t ∈ toks, t.text ≠ "") :
    ((group_text_into_rows toks 3).map
        (fun r => ((specGapGroups 10 r).map List.length).sum)).sum = toks.length ∧
    build_table_from_rows (group_text_into_rows toks 3)
      = (group_text_into_rows toks 3).map
          (fun r => (specGapGroups 10 r).map specCellText) := by
  constructor
  · have hinner : ∀ r : List Token, ((specGapGroups 10 r).map List.length).sum = r.length := by
      intro r
      rw [← List.length_flatten, specGapGroups_flatten]
    have hmap : (group_text_into_rows toks 3).map
          (fun r => ((specGapGroups 10 r).map List.length).sum)
        = (group_text_into_rows toks 3).map List.length :=
      List.map_congr_left (fun r _ => hinner r)
    rw [hmap, group_rows_length]
  · exact List.map_congr_left (fun r _ => build_row_eq_groups r)

/-- C5, witness: the token-conservation statement at a one-token page. -/
theorem C5_witness :
    (∀ t ∈ [(⟨"x", 0, 1, 0⟩ : Token)], t.text ≠ "") ∧
    (((group_text_into_rows [(⟨"x", 0, 1, 0⟩ : Token)] 3).map
        (fun r => ((specGapGroups 10 r).map List.length).sum)).sum
        = [(⟨"x", 0, 1, 0⟩ : Token)].length ∧
      build_table_from_rows (group_text_into_rows [(⟨"x", 0, 1, 0⟩ : Token)] 3)
        = (group_text_into_rows [(⟨"x", 0, 1, 0⟩ : Token)] 3).map
            (fun r => (specGapGroups 10 r).map specCellText)) :=
  ⟨by decide, C5_no_token_loss [(⟨"x", 0, 1, 0⟩ : Token)] (by decide)⟩

/-- C6: the empty token set yields an empty row sequence and an empty table,
and the fallback reports the valid "no table detected" outcome rather than
an error. -/
theorem C6_empty_input :
    group_text_into_rows [] 3 = [] ∧ fallbackResult [] = none ∧
    build_table_from_rows [] = [] ∧ pageStep [] [] = ([], true) :=
  ⟨rfl, rfl, rfl, rfl⟩

/-- C7: the trailing accumulator is always flushed — a non-empty row of
tokens produces a non-empty cell sequence, and an empty row produces the
empty cell sequence. -/
theorem C7_trailing_flush (row : List Token) :
    (row ≠ [] → (∀ t ∈ row, t.text ≠ "") → build_row row ≠ []) ∧
    build_row ([] : List Token) = [] := by
  constructor
  · intro hne _
    rw [build_row_eq_groups]
    cases row with
    | nil => cases hne rfl
    | cons t ts =>
      simp only [specGapGroups]
      intro h
      exact gapGroupsAux_ne_nil 10 ts t [t] (List.map_eq_nil_iff.1 h)
  · rfl

/-- C7, witness: a one-token row produces a non-empty cell sequence. -/
theorem C7_witness :
    ([(⟨"x", 0, 1, 0⟩ : Token)] ≠ ([] : List Token)) ∧
    (∀ t ∈ [(⟨"x", 0, 1, 0⟩ : Token)], t.text ≠ "") ∧
    build_row [(⟨"x", 0, 1, 0⟩ : Token)] ≠ [] :=
  ⟨by decide, by decide,
    (C7_trailing_flush [(⟨"x", 0, 1, 0⟩ : Token)]).1 (by decide) (by decide)⟩

/-- C8: re-clustering an emitted Row with the same tolerance reproduces
exactly that single Row — its tokens share one bucket key and are already
stably sorted by `x0`. -/
theorem C8_reclustering_idempotent (tolerance : ℚ) (toks : List Token) (row : List Token)
    (hrow : row ∈ group_text_into_rows toks tolerance) :
    group_text_into_rows row tolerance = [row] := by
  obtain ⟨hne, ⟨y, hall⟩, hsorted⟩ := group_row_spec toks tolerance row hrow
  exact group_of_single_key row tolerance y hne hall hsorted

/-- C8, witness: re-clustering the single row of a one-token page. -/
theorem C8_witness :
    group_text_into_rows [(⟨"x", 0, 1, 0⟩ : Token)] 3 = [[(⟨"x", 0, 1, 0⟩ : Token)]] := by
  have hg : group_text_into_rows [(⟨"x", 0, 1, 0⟩ : Token)] 3
      = [[(⟨"x", 0, 1, 0⟩ : Token)]] := by
    unfold group_text_into_rows
    simp [sortS, insertS, List.filter]
  have hmem : [(⟨"x", 0, 1, 0⟩ : Token)] ∈ group_text_into_rows [(⟨"x", 0, 1, 0⟩ : Token)] 3 := by
    rw [hg]
    exact List.mem_singleton_self _
  exact C8_reclustering_idempotent 3 [(⟨"x", 0, 1, 0⟩ : Token)] [(⟨"x", 0, 1, 0⟩ : Token)] hmem

/-- C9: a word dict missing any of the positional fields `top`, `x0`, `x1`
makes the heuristic pipeline raise (the dictionary subscript fails) instead
of substituting a default position and producing a table. -/
theorem C9_missing_field_fails (tolerance : ℚ) (toks : List RawToken)
    (h : ∃ t ∈ toks, missingField t) :
    fallbackResultE tolerance toks = Except.error () :=
  fallbackE_error tolerance toks h

/-- C9, witness: a single word dict lacking `top` aborts the pipeline. -/
theorem C9_witness :
    (∃ t ∈ [(⟨"x", some 0, some 1, none⟩ : RawToken)], missingField t) ∧
    fallbackResultE 3 [(⟨"x", some 0, some 1, none⟩ : RawToken)] = Except.error () :=
  ⟨⟨_, List.mem_singleton_self _, Or.inl rfl⟩,
    C9_missing_field_fails 3 [(⟨"x", some 0, some 1, none⟩ : RawToken)]
      ⟨_, List.mem_singleton_self _, Or.inl rfl⟩⟩

/-- C10: every emitted row contains at least one token, and the row list is
empty exactly when the input token list is empty — which is what makes the
caller's emptiness check a reliable "no table" signal. -/
theorem C10_no_empty_rows (tolerance : ℚ) (toks : List Token) :
    (group_text_into_rows toks tolerance).all (fun r => !r.isEmpty) = true ∧
    (group_text_into_rows toks tolerance).isEmpty = toks.isEmpty := by
  constructor
  · rw [List.all_eq_true]
    intro r hr
    have hne := (group_row_spec toks tolerance r hr).1
    simpa using hne
  · exact group_isEmpty_eq toks tolerance
